import Mathlib

/-!
Shallow embedding of the workflow/state-machine core of the
`llm-stock-team-analyzer` repository, together with proofs that settle the
frozen claims about its specification.

Python strings are modelled as `List Char` (`Str`): Python string
concatenation becomes list append, `str.split("\n")` becomes `splitNl`,
`str.startswith` becomes `List.isPrefixOf`, `s[-n:]` becomes `lastChars`,
and `"\n".join` becomes `List.intercalate [nl]`.  LLM replies, memory
lookups and data fetches are modelled as oracle parameters: the embedded
node functions are parametric in the text the external collaborator
returns, exactly as the Python nodes are.
-/

namespace StockTeam

/-- Python strings, modelled as lists of characters. -/
abbrev Str := List Char

/-- The newline character used by the Python code as line separator. -/
def nl : Char := Char.ofNat 10

/-- Speaker tag of bull utterances, `"看多分析師："`
(`bull_researcher.py`: `argument = f"看多分析師：{response.content}"`). -/
def bullTagZh : Str := ("看多分析師：").data

/-- Speaker tag of bear utterances, `"看空分析師："`
(`bear_researcher.py`: `argument = f"看空分析師：{response.content}"`). -/
def bearTagZh : Str := ("看空分析師：").data

/-- English bull tag scanned for by the history-truncation loop. -/
def bullTagEn : Str := ("Bull Analyst:").data

/-- English bear tag scanned for by the history-truncation loop. -/
def bearTagEn : Str := ("Bear Analyst:").data

/-- The `investment_debate_state` sub-record of the shared agent state
(`agent_states.InvestDebateState`).  The Python dict keys are modelled as
total fields; code reading an absent key with `.get(key, default)` matches
a field holding the default value. -/
structure InvestDebateState where
  history : Str
  bull_history : Str
  bear_history : Str
  current_response : Str
  judge_decision : Str
  count : Nat
  bull_count : Nat
  bear_count : Nat
deriving DecidableEq, Repr

/-- The empty debate state.  `Propagator.create_initial_state` builds it with
empty histories and `count = 0` (`bull_count`/`bear_count` keys absent, read
back with default `0`); `should_continue_debate` initializes the same values
when the key is missing. -/
def initialInvestDebateState : InvestDebateState :=
  { history := []
    bull_history := []
    bear_history := []
    current_response := []
    judge_decision := []
    count := 0
    bull_count := 0
    bear_count := 0 }

/-- Python `s.split("\n")`: split a string at every newline; the result
always has one more segment than there are newlines, so it is never empty. -/
def splitNl : Str → List Str
  | [] => [[]]
  | c :: cs =>
    if c = nl then [] :: splitNl cs
    else
      match splitNl cs with
      | [] => [[c]]
      | l :: ls => (c :: l) :: ls

/-- Python `"\n".join(lines)`. -/
def joinNl (ls : List Str) : Str := List.intercalate [nl] ls

/-- Python `s[-n:]`: the last `n` characters of `s` (all of `s` when
`s` is shorter than `n`). -/
def lastChars (n : Nat) (s : Str) : Str := s.drop (s.length - n)

/-- The `line.startswith(...) or ...` test of the truncation loop in both
researcher nodes: does the line open a bull or bear utterance? -/
def isUtteranceStart (l : Str) : Bool :=
  bullTagZh.isPrefixOf l || bearTagZh.isPrefixOf l ||
    bullTagEn.isPrefixOf l || bearTagEn.isPrefixOf l

/-- The `for i, line in enumerate(lines): if line.startswith(...): history =
"\n".join(lines[i:]); break` loop: the suffix of the line list from the first
line that starts an utterance, or `none` when no line matches (in which case
the Python loop leaves `history` at its original, untruncated value). -/
def dropToUtteranceStart : List Str → Option (List Str)
  | [] => none
  | l :: ls => if isUtteranceStart l then some (l :: ls) else dropToUtteranceStart ls

/-- The history-truncation budget hardcoded in both researcher nodes:
`max_history_chars = 3500`. -/
def maxHistoryChars : Nat := 3500

/-- History truncation performed by `bull_node`/`bear_node` before appending:
if the history exceeds 3500 characters, keep its last 3500 characters and then
drop leading lines up to the first utterance-start line; if no such line is
found the original history is kept unchanged. -/
def truncateHistory (h : Str) : Str :=
  if maxHistoryChars < h.length then
    match dropToUtteranceStart (splitNl (lastChars maxHistoryChars h)) with
    | some ls => joinNl ls
    | none => h
  else h

/-- The `max_rounds = 2  # Should match the config` literal hardcoded in both
researcher nodes (it is NOT read from the configuration, whose
`max_debate_rounds` defaults to 1). -/
def hardcodedMaxRounds : Nat := 2

/-- Header prepended when a researcher synthesizes the investment plan:
`investment_plan = f"研究團隊多空攻防：\n{debate_history}"`. -/
def investmentPlanHeader : Str := ("研究團隊多空攻防：\n").data

/-- The partial state update returned by a researcher node: the new debate
state, plus the `investment_plan` key when the node chose to set it. -/
structure ResearcherResult where
  investment_debate_state : InvestDebateState
  investment_plan : Option Str
deriving DecidableEq, Repr

/-- The `bull_node` closure of `bull_researcher.py`, as a function of the
inbound debate state and of the text the LLM oracle returns for its prompt.
It truncates the history, appends the tagged argument to `history` and
`bull_history`, replaces `current_response`, increments `count` and
`bull_count`, and sets `investment_plan` when both counters have reached the
hardcoded `max_rounds = 2`. -/
def bull_node (state : InvestDebateState) (responseContent : Str) : ResearcherResult :=
  let history := truncateHistory state.history
  let argument := bullTagZh ++ responseContent
  let newState : InvestDebateState :=
    { history := history ++ nl :: argument
      bull_history := state.bull_history ++ nl :: argument
      bear_history := state.bear_history
      current_response := argument
      judge_decision := state.judge_decision
      count := state.count + 1
      bull_count := state.bull_count + 1
      bear_count := state.bear_count }
  { investment_debate_state := newState
    investment_plan :=
      if newState.bull_count ≥ hardcodedMaxRounds ∧ newState.bear_count ≥ hardcodedMaxRounds
      then some (investmentPlanHeader ++ newState.history)
      else none }

/-- The `bear_node` closure of `bear_researcher.py`, mirror image of
`bull_node`: appends to `history` and `bear_history`, increments `count` and
`bear_count`, leaves the bull fields unchanged. -/
def bear_node (state : InvestDebateState) (responseContent : Str) : ResearcherResult :=
  let history := truncateHistory state.history
  let argument := bearTagZh ++ responseContent
  let newState : InvestDebateState :=
    { history := history ++ nl :: argument
      bull_history := state.bull_history
      bear_history := state.bear_history ++ nl :: argument
      current_response := argument
      judge_decision := state.judge_decision
      count := state.count + 1
      bull_count := state.bull_count
      bear_count := state.bear_count + 1 }
  { investment_debate_state := newState
    investment_plan :=
      if newState.bull_count ≥ hardcodedMaxRounds ∧ newState.bear_count ≥ hardcodedMaxRounds
      then some (investmentPlanHeader ++ newState.history)
      else none }

/-- The three values `should_continue_debate` can return: the names of the
next graph node. -/
inductive DebateRoute where
  | bullResearcher
  | bearResearcher
  | trader
deriving DecidableEq, Repr

/-- The routing decision of `ConditionalLogic.should_continue_debate`, given
the configured `max_debate_rounds` and a present debate state, with the four
checks in source order: total-count ceiling, per-side ceiling, normal
completion, then turn selection. -/
def should_continue_debate_route (max_debate_rounds : Nat)
    (d : InvestDebateState) : DebateRoute :=
  if d.count ≥ max_debate_rounds * 4 then .trader
  else if d.bull_count ≥ max_debate_rounds * 2 ∨ d.bear_count ≥ max_debate_rounds * 2
  then .trader
  else if d.bull_count ≥ max_debate_rounds ∧ d.bear_count ≥ max_debate_rounds
  then .trader
  else if d.bull_count ≤ d.bear_count then .bullResearcher
  else .bearResearcher

/-- The slice of the shared agent state that `should_continue_debate` touches:
the (possibly absent) debate sub-record and the `investment_plan` text. -/
structure RouterState where
  investment_debate_state : Option InvestDebateState
  investment_plan : Str
deriving DecidableEq, Repr

/-- The full effect of `ConditionalLogic.should_continue_debate` on the shared
state: it initializes `investment_debate_state` in place when the key is
absent, reads the counters, and returns a route name.  It writes nothing
else — in particular it never writes `investment_plan`. -/
def should_continue_debate (max_debate_rounds : Nat)
    (st : RouterState) : RouterState × DebateRoute :=
  let st1 : RouterState :=
    match st.investment_debate_state with
    | none => { st with investment_debate_state := some initialInvestDebateState }
    | some _ => st
  let d := st1.investment_debate_state.getD initialInvestDebateState
  (st1, should_continue_debate_route max_debate_rounds d)

/-- One LLM reply as seen by an analyst node: its text content and the list
of tool calls it requests (empty when the analyst is done). -/
structure LLMResult where
  content : Str
  tool_calls : List Str
deriving DecidableEq, Repr

/-- The partial state update returned by `market_analyst_node`: the messages
appended to the conversation and the `market_report` key when written. -/
structure MarketAnalystUpdate where
  messages : List LLMResult
  market_report : Option Str
deriving DecidableEq, Repr

/-- The tail of `market_analyst_node` (`market_analyst.py`): if the LLM result
carries tool calls, return only the appended message; otherwise also write
`market_report = result.content`.  Everything before this branch only builds
the prompt, so the node is a function of the LLM oracle's reply. -/
def market_analyst_node (result : LLMResult) : MarketAnalystUpdate :=
  if result.tool_calls ≠ [] then
    { messages := [result], market_report := none }
  else
    { messages := [result], market_report := some result.content }

/-- The report text an analyst name maps to in the shared state (used to
state claims about `are_analysts_complete`; the Python code reads
`state.get("market_report")` / `state.get("news_report")`). -/
def reportOf (market_report news_report : Str) (analyst : String) : Str :=
  if analyst = "market" then market_report
  else if analyst = "news" then news_report
  else []

/-- `ConditionalLogic.are_analysts_complete`: build the set of selected
analysts whose report is non-empty (Python truthiness of the report string)
and compare it, as a set, with the set of selected analysts. -/
def are_analysts_complete (selected_analysts : List String)
    (market_report news_report : Str) : Bool :=
  let completed_analysts : Finset String :=
    (if "market" ∈ selected_analysts ∧ market_report ≠ [] then {"market"} else ∅) ∪
      (if "news" ∈ selected_analysts ∧ news_report ≠ [] then {"news"} else ∅)
  let required_analysts : Finset String := selected_analysts.toFinset
  decide (completed_analysts = required_analysts)

/-- The keys of the `supported_indicators` dict of
`get_stock_stats_indicators_window` (`dataflows/interface.py`), in insertion
order — the names enumerated by the rejection error message. -/
def supported_indicators : List String :=
  ["close_5_ema", "close_10_ema", "close_20_sma", "close_50_sma", "close_200_sma",
   "macd", "macd_5_13_9", "macds", "macdh",
   "rsi", "rsi_7",
   "boll", "boll_10_1.5", "boll_20_2", "boll_ub", "boll_lb",
   "kdj", "kdj_5",
   "atr", "atr_10",
   "vwma", "obv",
   "adx", "mfi"]

/-- The `ValueError(f"Indicator {indicator} is not supported. Please choose
from: {list(supported_indicators.keys())}")` raised by
`get_stock_stats_indicators_window`, carrying the offending name and the
enumerated list of supported names embedded in the message. -/
structure UnsupportedIndicatorError where
  indicator : String
  supported : List String
deriving DecidableEq, Repr

/-- `get_stock_stats_indicators_window` (`dataflows/interface.py`): the
unsupported-name check runs first and raises before any data is fetched; the
success path (data fetch plus indicator calculation, out of the claims'
scope) is abstracted as the `fetchData` oracle, which the error path never
consults.  The function reads and writes no shared state. -/
def get_stock_stats_indicators_window (indicator : String)
    (fetchData : String → String) : Except UnsupportedIndicatorError String :=
  if indicator ∉ supported_indicators then
    Except.error { indicator := indicator, supported := supported_indicators }
  else
    Except.ok (fetchData indicator)

/-- The slice of the shared state the trader node reads.  `investment_plan`
is `none` when the key is absent; the Python code reads it with
`state.get("investment_plan", "")`. -/
structure TraderState where
  investment_plan : Option Str
  company_of_interest : Str
  market_report : Str
  news_report : Str
deriving DecidableEq, Repr

/-- The partial state update returned by `trader_node`. -/
structure TraderUpdate where
  messages : List Str
  trader_investment_plan : Str
  final_trade_decision : Str
  sender : String
deriving DecidableEq, Repr

/-- The `past_memory_str` accumulation of `trader_node`: concatenate the
retrieved recommendations each followed by a blank line, or the sentinel text
when no memory matched. -/
def pastMemoryStr (past_memories : List Str) : Str :=
  if past_memories = [] then ("No past memories found.").data
  else (past_memories.map (fun rec => rec ++ ("\n\n").data)).flatten

/-- The user-role context message built by `trader_node`, embedding the
company name and the investment plan read from the state. -/
def traderContext (company_name investment_plan : Str) : Str :=
  ("基於分析師團隊的綜合分析，這是為").data ++ company_name ++
    ("量身定制的投資計劃。該計劃結合了當前技術市場趨勢、宏觀經濟指標和社交媒體情緒的洞察。請將此計劃作為評估您下一個交易決策的基礎。\n\n建議投資計劃：").data ++
    investment_plan ++
    ("\n\n利用這些洞察做出明智和戰略性的決策。").data

/-- The system-role message built by `trader_node`, embedding the past-memory
text. -/
def traderSystem (past_memory_str : Str) : Str :=
  ("您是一位交易代理，分析市場數據以做出投資決策。基於您的分析，提供具體的買入、賣出或持有建議。以堅定的決策結束，並始終以「最終交易建議：**買入/持有/賣出**」結束您的回應以確認您的建議。不要忘記利用過去決策的經驗教訓來從錯誤中學習。以下是您在類似情況下交易的一些反思和經驗教訓：").data ++
    past_memory_str ++
    ("。請用中文撰寫所有分析和建議。").data

/-- The `trader_node` closure of `trader.py` (bound to `name = "Trader"` via
`functools.partial`): read the plan with an empty-string default, build the
two prompt messages, invoke the LLM oracle on them, and return the reply as
both `trader_investment_plan` and `final_trade_decision`. -/
def trader_node (state : TraderState) (past_memories : List Str)
    (llm : Str → Str → Str) : TraderUpdate :=
  let investment_plan := state.investment_plan.getD []
  let past_memory_str := pastMemoryStr past_memories
  let result := llm (traderSystem past_memory_str)
    (traderContext state.company_of_interest investment_plan)
  { messages := [result]
    trader_investment_plan := result
    final_trade_decision := result
    sender := "Trader" }

/-- A node of the debate phase of the compiled workflow graph (`setup.py`):
the two researcher nodes and the trader node. -/
inductive DebateNode where
  | bullResearcher
  | bearResearcher
  | trader
deriving DecidableEq, Repr

/-- The node a route name leads to (`setup.py` registers the conditional
edges of both researcher nodes with the identity mapping on node names). -/
def nodeOfRoute : DebateRoute → DebateNode
  | .bullResearcher => .bullResearcher
  | .bearResearcher => .bearResearcher
  | .trader => .trader

/-- One execution step of the debate phase: the researcher at the current
node runs on some LLM reply `c`, producing the new debate state, and the
router (`should_continue_debate`) then selects the next node from that new
state.  `trader` is terminal.  The reply `c` is unconstrained — the step
relation quantifies over every text the LLM oracle could return. -/
inductive DebateStep (R : Nat) :
    DebateNode × InvestDebateState → DebateNode × InvestDebateState → Prop where
  | bull (s : InvestDebateState) (c : Str) :
      DebateStep R (.bullResearcher, s)
        (nodeOfRoute (should_continue_debate_route R
          (bull_node s c).investment_debate_state),
          (bull_node s c).investment_debate_state)
  | bear (s : InvestDebateState) (c : Str) :
      DebateStep R (.bearResearcher, s)
        (nodeOfRoute (should_continue_debate_route R
          (bear_node s c).investment_debate_state),
          (bear_node s c).investment_debate_state)

/-- The configurations reachable in the debate phase.  The phase starts at
the Bull Researcher node — `setup.py` wires the unconditional edge
`Analysis Phase Checker -> Bull Researcher` — with the initial debate state
built by the Propagator. -/
def DebateReachable (R : Nat) (p : DebateNode × InvestDebateState) : Prop :=
  Relation.ReflTransGen (DebateStep R) (.bullResearcher, initialInvestDebateState) p

example : splitNl (("a\nb").data) = [("a").data, ("b").data] := by decide
example : splitNl [] = [[]] := by decide
example : truncateHistory (("ab").data) = ("ab").data := by decide
example :
    (bull_node initialInvestDebateState (("x").data)).investment_debate_state.bull_count = 1 := by
  decide
example :
    should_continue_debate_route 1
      (bull_node initialInvestDebateState (("x").data)).investment_debate_state =
      .bearResearcher := by
  decide

/-- C1 (amended): for every configured number of rounds and every state whose
debate sub-record hit the hard total ceiling (`count >= 4 * maxDebateRounds`)
or a per-side ceiling (`bullCount >= 2 * maxDebateRounds` or
`bearCount >= 2 * maxDebateRounds`), `should_continue_debate` forces the
route to Trader and leaves the rest of the state — in particular
`investment_plan` — completely unchanged: no fallback synthesis happens. -/
theorem C1_ceiling_forces_trader_no_synthesis (R : Nat) (st : RouterState)
    (d : InvestDebateState) (hd : st.investment_debate_state = some d)
    (hceil : d.count ≥ R * 4 ∨ d.bull_count ≥ R * 2 ∨ d.bear_count ≥ R * 2) :
    (should_continue_debate R st).2 = .trader ∧
    (should_continue_debate R st).1 = st := by
  have hroute : should_continue_debate_route R d = .trader := by
    unfold should_continue_debate_route
    by_cases h1 : d.count ≥ R * 4
    · rw [if_pos h1]
    · rw [if_neg h1, if_pos]
      omega
  simp [should_continue_debate, hd, hroute]

/-- C1 witness: instantiating the amended ceiling theorem at a concrete state
with all three ceilings relevant. -/
theorem C1_ceiling_forces_trader_no_synthesis_witness :
    (should_continue_debate 1
      { investment_debate_state := some
          { initialInvestDebateState with count := 5, bull_count := 3, bear_count := 2 }
        investment_plan := [] }).2 = .trader ∧
    (should_continue_debate 1
      { investment_debate_state := some
          { initialInvestDebateState with count := 5, bull_count := 3, bear_count := 2 }
        investment_plan := [] }).1 =
      { investment_debate_state := some
          { initialInvestDebateState with count := 5, bull_count := 3, bear_count := 2 }
        investment_plan := [] } :=
  C1_ceiling_forces_trader_no_synthesis 1 _ _ rfl (Or.inl (by decide))

/-- C1 counterexample: a concrete state at the hard ceiling (`count = 4`,
`maxDebateRounds = 1`) with a non-empty debate history and `investment_plan`
unset.  The router routes to Trader, but `investment_plan` stays empty — the
synthesis the claim describes does not happen anywhere in the routing path. -/
theorem C1_no_fallback_synthesis_counterexample :
    (should_continue_debate 1
      { investment_debate_state := some
          { initialInvestDebateState with
              history := ("\n看多分析師：a\n看空分析師：b").data
              count := 4, bull_count := 2, bear_count := 2 }
        investment_plan := [] }).2 = .trader ∧
    (should_continue_debate 1
      { investment_debate_state := some
          { initialInvestDebateState with
              history := ("\n看多分析師：a\n看空分析師：b").data
              count := 4, bull_count := 2, bear_count := 2 }
        investment_plan := [] }).1.investment_plan = [] := by
  decide

/-- C2: below the safety ceilings the router routes to Trader exactly when
both counters have reached `max_debate_rounds`; otherwise Bull is selected
exactly when `bull_count <= bear_count`, Bear otherwise; in particular with
both counters at zero the next speaker is always Bull. -/
theorem C2_turn_selection (R : Nat) (d : InvestDebateState)
    (hTot : d.count < R * 4)
    (hBull : d.bull_count < R * 2) (hBear : d.bear_count < R * 2) :
    (should_continue_debate_route R d = .trader ↔
      d.bull_count ≥ R ∧ d.bear_count ≥ R) ∧
    (¬(d.bull_count ≥ R ∧ d.bear_count ≥ R) →
      (should_continue_debate_route R d = .bullResearcher ↔
        d.bull_count ≤ d.bear_count) ∧
      (should_continue_debate_route R d = .bearResearcher ↔
        ¬ d.bull_count ≤ d.bear_count)) ∧
    (d.bull_count = 0 ∧ d.bear_count = 0 →
      should_continue_debate_route R d = .bullResearcher) := by
  have h1 : ¬ d.count ≥ R * 4 := by omega
  have h2 : ¬ (d.bull_count ≥ R * 2 ∨ d.bear_count ≥ R * 2) := by omega
  unfold should_continue_debate_route
  rw [if_neg h1, if_neg h2]
  by_cases h3 : d.bull_count ≥ R ∧ d.bear_count ≥ R
  · rw [if_pos h3]
    refine ⟨by simp [h3], fun hn => absurd h3 hn, fun hz => ?_⟩
    exfalso
    omega
  · rw [if_neg h3]
    by_cases h4 : d.bull_count ≤ d.bear_count
    · rw [if_pos h4]
      exact ⟨by simp [h3], fun _ => ⟨by simp [h4], by simp [h4]⟩, fun _ => rfl⟩
    · rw [if_neg h4]
      refine ⟨by simp [h3], fun _ => ⟨by simp [h4], by simp [h4]⟩, fun hz => ?_⟩
      exfalso
      omega

/-- C2 witness: the turn-selection theorem applied at a concrete
below-ceiling state. -/
theorem C2_turn_selection_witness :
    (should_continue_debate_route 2
        { initialInvestDebateState with count := 2, bull_count := 1, bear_count := 1 } =
        .trader ↔ (1 : Nat) ≥ 2 ∧ (1 : Nat) ≥ 2) ∧
    (¬((1 : Nat) ≥ 2 ∧ (1 : Nat) ≥ 2) →
      (should_continue_debate_route 2
          { initialInvestDebateState with count := 2, bull_count := 1, bear_count := 1 } =
          .bullResearcher ↔ (1 : Nat) ≤ 1) ∧
      (should_continue_debate_route 2
          { initialInvestDebateState with count := 2, bull_count := 1, bear_count := 1 } =
          .bearResearcher ↔ ¬ (1 : Nat) ≤ 1)) ∧
    ((1 : Nat) = 0 ∧ (1 : Nat) = 0 →
      should_continue_debate_route 2
          { initialInvestDebateState with count := 2, bull_count := 1, bear_count := 1 } =
          .bullResearcher) :=
  C2_turn_selection 2
    { initialInvestDebateState with count := 2, bull_count := 1, bear_count := 1 }
    (by decide) (by decide) (by decide)

/-- C3 (code divergence): starting from the initial debate state, let Bull
speak once and then Bear speak once.  After Bear's increment both counters
equal 1, i.e. both have reached the repository's configured default
`max_debate_rounds = 1` — yet the node synthesizes no investment plan,
because both researcher nodes compare the counters against a hardcoded
`max_rounds = 2` ("Should match the config") instead of the configured
value. -/
theorem C3_hardcoded_rounds_divergence :
    ((bear_node
        (bull_node initialInvestDebateState (("a").data)).investment_debate_state
        (("b").data)).investment_debate_state.bull_count = 1 ∧
      (bear_node
        (bull_node initialInvestDebateState (("a").data)).investment_debate_state
        (("b").data)).investment_debate_state.bear_count = 1) ∧
    (bear_node
        (bull_node initialInvestDebateState (("a").data)).investment_debate_state
        (("b").data)).investment_plan = none := by
  decide

/-- C6: the analyst node appends exactly its LLM reply to the conversation in
both branches, and writes the `market_report` entry exactly when the reply
carries no tool calls — so the report is populated iff the analyst has exited
its tool-call loop. -/
theorem C6_report_iff_no_tool_calls (result : LLMResult) :
    (market_analyst_node result).messages = [result] ∧
    ((market_analyst_node result).market_report = some result.content ↔
      result.tool_calls = []) ∧
    ((market_analyst_node result).market_report = none ↔
      result.tool_calls ≠ []) := by
  unfold market_analyst_node
  by_cases h : result.tool_calls = [] <;> simp [h]

/-- C9: any unsupported indicator name is rejected with the error that
enumerates exactly the supported indicator names, and the result does not
depend on the data-fetch oracle — the rejection happens before any data is
fetched, and the operation is a pure function of its arguments (no shared
state is touched). -/
theorem C9_unsupported_indicator_rejected (indicator : String)
    (h : indicator ∉ supported_indicators) (fetchData : String → String) :
    get_stock_stats_indicators_window indicator fetchData =
      Except.error { indicator := indicator, supported := supported_indicators } ∧
    (∀ fetchData2 : String → String,
      get_stock_stats_indicators_window indicator fetchData =
        get_stock_stats_indicators_window indicator fetchData2) := by
  unfold get_stock_stats_indicators_window
  rw [if_pos h]
  exact ⟨rfl, fun fetchData2 => by rw [if_pos h]⟩

/-- C9 witness: the spec's own scenario, `"unknown_indicator"`. -/
theorem C9_unsupported_indicator_rejected_witness :
    ("unknown_indicator" ∉ supported_indicators) ∧
    get_stock_stats_indicators_window "unknown_indicator" (fun s => s) =
      Except.error
        { indicator := "unknown_indicator", supported := supported_indicators } :=
  ⟨by decide,
    (C9_unsupported_indicator_rejected "unknown_indicator" (by decide) (fun s => s)).1⟩

/-- C10: the trader node reads a missing or empty `investment_plan` with an
empty-string default and never raises; it still invokes the LLM on the prompt
built around the empty plan, and returns the identical reply text as both
`trader_investment_plan` and `final_trade_decision`, with sender `"Trader"`.
A state with the key absent behaves exactly like one carrying the empty
string. -/
theorem C10_trader_tolerates_missing_plan (state : TraderState)
    (past_memories : List Str) (llm : Str → Str → Str)
    (hunset : state.investment_plan = none ∨ state.investment_plan = some []) :
    (trader_node state past_memories llm).trader_investment_plan =
      llm (traderSystem (pastMemoryStr past_memories))
        (traderContext state.company_of_interest []) ∧
    (trader_node state past_memories llm).final_trade_decision =
      (trader_node state past_memories llm).trader_investment_plan ∧
    (trader_node state past_memories llm).sender = "Trader" ∧
    trader_node state past_memories llm =
      trader_node { state with investment_plan := some [] } past_memories llm := by
  rcases hunset with h | h <;> simp [trader_node, h]

/-- C10 witness: the trader theorem applied to a concrete state with the
plan key absent and an echoing LLM oracle. -/
theorem C10_trader_tolerates_missing_plan_witness :
    (trader_node
        { investment_plan := none, company_of_interest := ("TSM").data
          market_report := [], news_report := [] }
        [] (fun _ c => c)).trader_investment_plan =
      (fun _ c => c : Str → Str → Str) (traderSystem (pastMemoryStr []))
        (traderContext (("TSM").data) []) ∧
    (trader_node
        { investment_plan := none, company_of_interest := ("TSM").data
          market_report := [], news_report := [] }
        [] (fun _ c => c)).final_trade_decision =
      (trader_node
        { investment_plan := none, company_of_interest := ("TSM").data
          market_report := [], news_report := [] }
        [] (fun _ c => c)).trader_investment_plan ∧
    (trader_node
        { investment_plan := none, company_of_interest := ("TSM").data
          market_report := [], news_report := [] }
        [] (fun _ c => c)).sender = "Trader" ∧
    trader_node
        { investment_plan := none, company_of_interest := ("TSM").data
          market_report := [], news_report := [] }
        [] (fun _ c => c) =
      trader_node
        { investment_plan := some [], company_of_interest := ("TSM").data
          market_report := [], news_report := [] }
        [] (fun _ c => c) :=
  C10_trader_tolerates_missing_plan _ [] _ (Or.inl rfl)

/-- Inductive invariant of the debate phase for a configured round count
`R >= 1`: the total counter is the sum of the side counters, and the side
counters are balanced according to which node holds control. -/
def debateInv (R : Nat) : DebateNode × InvestDebateState → Prop
  | (n, s) =>
    s.count = s.bull_count + s.bear_count ∧
    (n = .bullResearcher → s.bull_count = s.bear_count ∧ s.bull_count < R) ∧
    (n = .bearResearcher → s.bull_count = s.bear_count + 1 ∧ s.bull_count ≤ R) ∧
    (n = .trader → s.bull_count = R ∧ s.bear_count = R)

lemma debateInv_init (R : Nat) (hR : 1 ≤ R) :
    debateInv R (.bullResearcher, initialInvestDebateState) := by
  refine ⟨rfl, fun _ => ⟨rfl, hR⟩, fun h => ?_, fun h => ?_⟩ <;> simp at h

lemma bull_node_counts (s : InvestDebateState) (c : Str) :
    (bull_node s c).investment_debate_state.count = s.count + 1 ∧
    (bull_node s c).investment_debate_state.bull_count = s.bull_count + 1 ∧
    (bull_node s c).investment_debate_state.bear_count = s.bear_count :=
  ⟨rfl, rfl, rfl⟩

lemma bear_node_counts (s : InvestDebateState) (c : Str) :
    (bear_node s c).investment_debate_state.count = s.count + 1 ∧
    (bear_node s c).investment_debate_state.bull_count = s.bull_count ∧
    (bear_node s c).investment_debate_state.bear_count = s.bear_count + 1 :=
  ⟨rfl, rfl, rfl⟩

lemma debateInv_step (R : Nat) (hR : 1 ≤ R) {p q : DebateNode × InvestDebateState}
    (hp : debateInv R p) (hs : DebateStep R p q) : debateInv R q := by
  cases hs with
  | bull s c =>
    obtain ⟨hsum, hbull, hbear, htrader⟩ := hp
    obtain ⟨heq, hlt⟩ := hbull rfl
    obtain ⟨h1, h2, h3⟩ := bull_node_counts s c
    have hroute :
        should_continue_debate_route R (bull_node s c).investment_debate_state =
          .bearResearcher := by
      unfold should_continue_debate_route
      rw [if_neg (by omega), if_neg (by omega), if_neg (by omega), if_neg (by omega)]
    rw [hroute]
    exact ⟨by omega, fun h => by simp [nodeOfRoute] at h,
      fun _ => by omega, fun h => by simp [nodeOfRoute] at h⟩
  | bear s c =>
    obtain ⟨hsum, hbull, hbear, htrader⟩ := hp
    obtain ⟨heq, hle⟩ := hbear rfl
    obtain ⟨h1, h2, h3⟩ := bear_node_counts s c
    by_cases hfin : s.bull_count = R
    · have hroute :
          should_continue_debate_route R (bear_node s c).investment_debate_state =
            .trader := by
        unfold should_continue_debate_route
        rw [if_neg (by omega), if_neg (by omega), if_pos (by omega)]
      rw [hroute]
      exact ⟨by omega, fun h => by simp [nodeOfRoute] at h,
        fun h => by simp [nodeOfRoute] at h, fun _ => by omega⟩
    · have hroute :
          should_continue_debate_route R (bear_node s c).investment_debate_state =
            .bullResearcher := by
        unfold should_continue_debate_route
        rw [if_neg (by omega), if_neg (by omega), if_neg (by omega), if_pos (by omega)]
      rw [hroute]
      exact ⟨by omega, fun _ => by omega,
        fun h => by simp [nodeOfRoute] at h, fun h => by simp [nodeOfRoute] at h⟩

lemma debateInv_reachable (R : Nat) (hR : 1 ≤ R)
    (p : DebateNode × InvestDebateState) (h : DebateReachable R p) :
    debateInv R p := by
  induction h with
  | refl => exact debateInv_init R hR
  | tail _ hstep ih => exact debateInv_step R hR ih hstep

/-- C4 (amended to `R >= 1`): in every configuration reachable in the debate
phase the total counter is bounded by `4 * R`, and whenever control reaches
the Trader node, both side counters had already reached `R` at the routing
decision that sent the debate there. -/
theorem C4_debate_bounds (R : Nat) (hR : 1 ≤ R) (n : DebateNode)
    (s : InvestDebateState) (h : DebateReachable R (n, s)) :
    s.count ≤ R * 4 ∧ (n = .trader → s.bull_count ≥ R ∧ s.bear_count ≥ R) := by
  obtain ⟨hsum, hbull, hbear, htrader⟩ := debateInv_reachable R hR (n, s) h
  cases n with
  | bullResearcher =>
    obtain ⟨heq, hlt⟩ := hbull rfl
    exact ⟨by omega, fun hc => by simp at hc⟩
  | bearResearcher =>
    obtain ⟨heq, hle⟩ := hbear rfl
    exact ⟨by omega, fun hc => by simp at hc⟩
  | trader =>
    obtain ⟨h1, h2⟩ := htrader rfl
    exact ⟨by omega, fun _ => by omega⟩

/-- C4 witness: the bound theorem applied to the debate phase's start
configuration with one configured round. -/
theorem C4_debate_bounds_witness :
    initialInvestDebateState.count ≤ 1 * 4 ∧
    (DebateNode.bullResearcher = .trader →
      initialInvestDebateState.bull_count ≥ 1 ∧
        initialInvestDebateState.bear_count ≥ 1) :=
  C4_debate_bounds 1 (by decide) .bullResearcher initialInvestDebateState
    Relation.ReflTransGen.refl

/-- C4 counterexample: the claim quantifies over every configured
`maxDebateRounds`, but with `maxDebateRounds = 0` (accepted by the
configuration model) the graph still runs the Bull Researcher once — the
edge from the analysis-phase checker to Bull is unconditional — so a state
with `count = 1 > 4 * 0` is reachable in the debate phase. -/
theorem C4_zero_rounds_counterexample :
    DebateReachable 0
      (.trader, (bull_node initialInvestDebateState []).investment_debate_state) ∧
    ¬ ((bull_node initialInvestDebateState []).investment_debate_state.count ≤ 0 * 4) := by
  constructor
  · have h := DebateStep.bull (R := 0) initialInvestDebateState []
    have hroute :
        nodeOfRoute (should_continue_debate_route 0
          (bull_node initialInvestDebateState []).investment_debate_state) =
          DebateNode.trader := by decide
    rw [hroute] at h
    exact Relation.ReflTransGen.single h
  · decide

lemma truncateHistory_short {h : Str} (hlen : h.length ≤ maxHistoryChars) :
    truncateHistory h = h := by
  unfold truncateHistory
  rw [if_neg]
  omega

/-- C5 (amended with the no-truncation premise): for every input debate state
whose history is within the 3500-character truncation budget, each researcher
node appends exactly one tagged utterance to `history` and to its own
side-history, sets `current_response` to that utterance, increments its own
counter and the total counter by exactly one, and leaves the opponent's
counter and side-history unchanged. -/
theorem C5_researcher_frame_effect (s : InvestDebateState) (c : Str)
    (hlen : s.history.length ≤ maxHistoryChars) :
    ((bull_node s c).investment_debate_state.history =
        s.history ++ nl :: (bullTagZh ++ c) ∧
      (bull_node s c).investment_debate_state.bull_history =
        s.bull_history ++ nl :: (bullTagZh ++ c) ∧
      (bull_node s c).investment_debate_state.current_response = bullTagZh ++ c ∧
      (bull_node s c).investment_debate_state.count = s.count + 1 ∧
      (bull_node s c).investment_debate_state.bull_count = s.bull_count + 1 ∧
      (bull_node s c).investment_debate_state.bear_count = s.bear_count ∧
      (bull_node s c).investment_debate_state.bear_history = s.bear_history) ∧
    ((bear_node s c).investment_debate_state.history =
        s.history ++ nl :: (bearTagZh ++ c) ∧
      (bear_node s c).investment_debate_state.bear_history =
        s.bear_history ++ nl :: (bearTagZh ++ c) ∧
      (bear_node s c).investment_debate_state.current_response = bearTagZh ++ c ∧
      (bear_node s c).investment_debate_state.count = s.count + 1 ∧
      (bear_node s c).investment_debate_state.bear_count = s.bear_count + 1 ∧
      (bear_node s c).investment_debate_state.bull_count = s.bull_count ∧
      (bear_node s c).investment_debate_state.bull_history = s.bull_history) := by
  constructor <;>
    simp [bull_node, bear_node, truncateHistory_short hlen]

/-- C5 witness: the frame-effect theorem applied to the initial debate state
and a one-character reply. -/
theorem C5_researcher_frame_effect_witness :
    ((bull_node initialInvestDebateState (("a").data)).investment_debate_state.history =
        initialInvestDebateState.history ++ nl :: (bullTagZh ++ ("a").data) ∧
      (bull_node initialInvestDebateState (("a").data)).investment_debate_state.bull_history =
        initialInvestDebateState.bull_history ++ nl :: (bullTagZh ++ ("a").data) ∧
      (bull_node initialInvestDebateState (("a").data)).investment_debate_state.current_response =
        bullTagZh ++ ("a").data ∧
      (bull_node initialInvestDebateState (("a").data)).investment_debate_state.count =
        initialInvestDebateState.count + 1 ∧
      (bull_node initialInvestDebateState (("a").data)).investment_debate_state.bull_count =
        initialInvestDebateState.bull_count + 1 ∧
      (bull_node initialInvestDebateState (("a").data)).investment_debate_state.bear_count =
        initialInvestDebateState.bear_count ∧
      (bull_node initialInvestDebateState (("a").data)).investment_debate_state.bear_history =
        initialInvestDebateState.bear_history) ∧
    ((bear_node initialInvestDebateState (("a").data)).investment_debate_state.history =
        initialInvestDebateState.history ++ nl :: (bearTagZh ++ ("a").data) ∧
      (bear_node initialInvestDebateState (("a").data)).investment_debate_state.bear_history =
        initialInvestDebateState.bear_history ++ nl :: (bearTagZh ++ ("a").data) ∧
      (bear_node initialInvestDebateState (("a").data)).investment_debate_state.current_response =
        bearTagZh ++ ("a").data ∧
      (bear_node initialInvestDebateState (("a").data)).investment_debate_state.count =
        initialInvestDebateState.count + 1 ∧
      (bear_node initialInvestDebateState (("a").data)).investment_debate_state.bear_count =
        initialInvestDebateState.bear_count + 1 ∧
      (bear_node initialInvestDebateState (("a").data)).investment_debate_state.bull_count =
        initialInvestDebateState.bull_count ∧
      (bear_node initialInvestDebateState (("a").data)).investment_debate_state.bull_history =
        initialInvestDebateState.bull_history) :=
  C5_researcher_frame_effect initialInvestDebateState (("a").data) (by decide)

/-- C8: for every selection drawn from the two available analyst names,
`are_analysts_complete` is true exactly when every selected analyst has a
non-empty report entry; and because it compares Finsets, its verdict is
invariant under any reordering of the selection list. -/
theorem C8_all_analysts_done (selected : List String) (mr nr : Str)
    (hsub : ∀ a ∈ selected, a = "market" ∨ a = "news") :
    (are_analysts_complete selected mr nr = true ↔
      ∀ a ∈ selected, reportOf mr nr a ≠ []) ∧
    (∀ selected2 : List String, selected.Perm selected2 →
      are_analysts_complete selected mr nr = are_analysts_complete selected2 mr nr) := by
  have hrm : reportOf mr nr "market" = mr := rfl
  have hrn : reportOf mr nr "news" = nr := rfl
  constructor
  · unfold are_analysts_complete
    rw [decide_eq_true_eq]
    constructor
    · intro heq a ha
      rcases hsub a ha with rfl | rfl
      · have hmem : "market" ∈ selected.toFinset := List.mem_toFinset.mpr ha
        rw [← heq] at hmem
        rw [hrm]
        rcases Finset.mem_union.mp hmem with hm | hm
        · by_cases hcond : "market" ∈ selected ∧ mr ≠ []
          · exact hcond.2
          · rw [if_neg hcond] at hm
            simp at hm
        · by_cases hcond : "news" ∈ selected ∧ nr ≠ []
          · rw [if_pos hcond] at hm
            simp at hm
          · rw [if_neg hcond] at hm
            simp at hm
      · have hmem : "news" ∈ selected.toFinset := List.mem_toFinset.mpr ha
        rw [← heq] at hmem
        rw [hrn]
        rcases Finset.mem_union.mp hmem with hm | hm
        · by_cases hcond : "market" ∈ selected ∧ mr ≠ []
          · rw [if_pos hcond] at hm
            simp at hm
          · rw [if_neg hcond] at hm
            simp at hm
        · by_cases hcond : "news" ∈ selected ∧ nr ≠ []
          · exact hcond.2
          · rw [if_neg hcond] at hm
            simp at hm
    · intro hall
      apply Finset.ext
      intro x
      simp only [Finset.mem_union, List.mem_toFinset]
      constructor
      · intro hx
        rcases hx with hx | hx
        · by_cases hcond : "market" ∈ selected ∧ mr ≠ []
          · rw [if_pos hcond] at hx
            simp only [Finset.mem_singleton] at hx
            subst hx
            exact hcond.1
          · rw [if_neg hcond] at hx
            simp at hx
        · by_cases hcond : "news" ∈ selected ∧ nr ≠ []
          · rw [if_pos hcond] at hx
            simp only [Finset.mem_singleton] at hx
            subst hx
            exact hcond.1
          · rw [if_neg hcond] at hx
            simp at hx
      · intro hx
        rcases hsub x hx with rfl | rfl
        · refine Or.inl ?_
          rw [if_pos ⟨hx, hrm ▸ hall _ hx⟩]
          simp
        · refine Or.inr ?_
          rw [if_pos ⟨hx, hrn ▸ hall _ hx⟩]
          simp
  · intro selected2 hp
    unfold are_analysts_complete
    simp only [hp.mem_iff, List.toFinset_eq_of_perm selected selected2 hp]

/-- C8 witness: the completion theorem applied to the selection
`["news", "market"]` with one empty and one non-empty report. -/
theorem C8_all_analysts_done_witness :
    (are_analysts_complete ["news", "market"] (("m").data) [] = true ↔
      ∀ a ∈ (["news", "market"] : List String),
        reportOf (("m").data) [] a ≠ []) ∧
    (∀ selected2 : List String, (["news", "market"] : List String).Perm selected2 →
      are_analysts_complete ["news", "market"] (("m").data) [] =
        are_analysts_complete selected2 (("m").data) []) :=
  C8_all_analysts_done ["news", "market"] (("m").data) [] (by decide)

lemma splitNl_ne_nil (s : Str) : splitNl s ≠ [] := by
  cases s with
  | nil => simp [splitNl]
  | cons c cs =>
    unfold splitNl
    by_cases h : c = nl
    · simp [h]
    · rw [if_neg h]
      cases hs : splitNl cs <;> simp

lemma splitNl_nlfree {s : Str} (h : nl ∉ s) : splitNl s = [s] := by
  induction s with
  | nil => rfl
  | cons c cs ih =>
    have hc : ¬ c = nl := fun hc => h (by simp [hc])
    have hcs : nl ∉ cs := fun hm => h (List.mem_cons_of_mem _ hm)
    unfold splitNl
    rw [if_neg hc, ih hcs]

lemma splitNl_append_nl {a : Str} (ha : nl ∉ a) (b : Str) :
    splitNl (a ++ nl :: b) = a :: splitNl b := by
  induction a with
  | nil => simp [splitNl]
  | cons c cs ih =>
    have hc : ¬ c = nl := fun hc => ha (by simp [hc])
    have hcs : nl ∉ cs := fun hm => ha (List.mem_cons_of_mem _ hm)
    rw [List.cons_append]
    conv_lhs => unfold splitNl
    rw [if_neg hc, ih hcs]

lemma charNe_isPrefixOf {c d : Char} (h : (c == d) = false) (t l : Str) :
    (c :: t).isPrefixOf (d :: l) = false := by
  simp [List.isPrefixOf, h]

lemma isUtteranceStart_x_cons (l : Str) : isUtteranceStart (('x') :: l) = false := by
  have h1 : (('看') == ('x')) = false := by decide
  have h2 : (('B') == ('x')) = false := by decide
  rw [isUtteranceStart,
    show bullTagZh = ('看') :: ("多分析師：").data from by decide,
    show bearTagZh = ('看') :: ("空分析師：").data from by decide,
    show bullTagEn = ('B') :: ("ull Analyst:").data from by decide,
    show bearTagEn = ('B') :: ("ear Analyst:").data from by decide,
    charNe_isPrefixOf h1, charNe_isPrefixOf h1, charNe_isPrefixOf h2,
    charNe_isPrefixOf h2]
  rfl

/-- A 3509-character inbound history: 3501 filler characters, a newline, and
one complete tagged bull utterance.  It exceeds the 3500-character truncation
budget of the researcher nodes. -/
def longHist : Str := List.replicate 3501 ('x') ++ nl :: (bullTagZh ++ [('a')])

lemma longHist_length : longHist.length = 3509 := by
  have htag : bullTagZh.length = 6 := by decide
  unfold longHist
  rw [List.length_append, List.length_replicate, List.length_cons, List.length_append,
    htag, List.length_singleton]

lemma truncateHistory_longHist : truncateHistory longHist = bullTagZh ++ [('a')] := by
  have hx : nl ∉ List.replicate 3492 ('x') := by
    intro hm
    have := List.eq_of_mem_replicate hm
    exact absurd this (by decide)
  have hlast : lastChars maxHistoryChars longHist =
      List.replicate 3492 ('x') ++ nl :: (bullTagZh ++ [('a')]) := by
    unfold lastChars maxHistoryChars
    rw [longHist_length]
    show longHist.drop 9 = _
    unfold longHist
    rw [List.drop_append_eq_append_drop, List.drop_replicate, List.length_replicate]
    norm_num
  unfold truncateHistory
  rw [if_pos (by rw [longHist_length]; unfold maxHistoryChars; omega), hlast,
    splitNl_append_nl hx, splitNl_nlfree (show nl ∉ bullTagZh ++ [('a')] from by decide),
    show List.replicate 3492 ('x') = ('x') :: List.replicate 3491 ('x') from
      List.replicate_succ ..]
  unfold dropToUtteranceStart
  rw [if_neg (by rw [isUtteranceStart_x_cons]; simp)]
  unfold dropToUtteranceStart
  rw [if_pos (by decide)]
  simp [joinNl, List.intercalate]

/-- C5 counterexample: on a 3509-character history the bull node does not
merely append its new line — the truncation step first discards everything
before the last tagged utterance, so the returned history differs from the
input history with the new line appended. -/
theorem C5_truncation_counterexample :
    (bull_node { initialInvestDebateState with history := longHist }
        [('b')]).investment_debate_state.history ≠
      longHist ++ nl :: (bullTagZh ++ [('b')]) := by
  have hnew : (bull_node { initialInvestDebateState with history := longHist }
      [('b')]).investment_debate_state.history =
      (bullTagZh ++ [('a')]) ++ nl :: (bullTagZh ++ [('b')]) := by
    simp [bull_node, truncateHistory_longHist]
  rw [hnew]
  intro heq
  have hlen := congrArg List.length heq
  have htag : bullTagZh.length = 6 := by decide
  rw [List.length_append, List.length_append, List.length_cons, List.length_append,
    longHist_length] at hlen
  simp [htag] at hlen

/-- One researcher invocation in a debate run: which side spoke and the text
the LLM oracle returned for it. -/
structure Emission where
  isBull : Bool
  content : Str
deriving DecidableEq, Repr

/-- The tagged utterance a researcher emits for an emission. -/
def emittedArg (e : Emission) : Str :=
  (if e.isBull then bullTagZh else bearTagZh) ++ e.content

/-- The debate-state effect of one researcher invocation. -/
def stepDebate (s : InvestDebateState) (e : Emission) : InvestDebateState :=
  if e.isBull then (bull_node s e.content).investment_debate_state
  else (bear_node s e.content).investment_debate_state

/-- A whole sequence of researcher invocations, folded over the debate
state. -/
def runDebate (s : InvestDebateState) (es : List Emission) : InvestDebateState :=
  es.foldl stepDebate s

/-- The text a sequence of emissions appends to `history`: each append
contributes one newline separator plus the tagged utterance. -/
def histOf (es : List Emission) : Str :=
  (es.map (fun e => nl :: emittedArg e)).flatten

/-- Number of characters a sequence of emissions adds to the history. -/
def emissionsSize (es : List Emission) : Nat :=
  (es.map (fun e => (emittedArg e).length + 1)).sum

/-- A history line carrying the bull speaker tag. -/
def isBullLine (l : Str) : Bool := bullTagZh.isPrefixOf l

/-- A history line carrying the bear speaker tag. -/
def isBearLine (l : Str) : Bool := bearTagZh.isPrefixOf l

lemma histOf_cons (e : Emission) (es : List Emission) :
    histOf (e :: es) = nl :: (emittedArg e ++ histOf es) := by
  simp [histOf]

lemma emissionsSize_cons (e : Emission) (es : List Emission) :
    emissionsSize (e :: es) = ((emittedArg e).length + 1) + emissionsSize es := by
  simp [emissionsSize]

lemma stepDebate_history {s : InvestDebateState} (e : Emission)
    (hlen : s.history.length ≤ maxHistoryChars) :
    (stepDebate s e).history = s.history ++ nl :: emittedArg e := by
  rcases e with ⟨b, c⟩
  cases b <;>
    simp [stepDebate, bull_node, bear_node, emittedArg, truncateHistory_short hlen]

lemma runDebate_history (es : List Emission) :
    ∀ s : InvestDebateState,
      s.history.length + emissionsSize es ≤ maxHistoryChars →
      (runDebate s es).history = s.history ++ histOf es := by
  induction es with
  | nil =>
    intro s _
    simp [runDebate, histOf]
  | cons e es ih =>
    intro s h
    rw [emissionsSize_cons] at h
    have h1 : s.history.length ≤ maxHistoryChars := by omega
    have hstep := stepDebate_history e h1
    have hlen2 : (stepDebate s e).history.length + emissionsSize es ≤ maxHistoryChars := by
      rw [hstep, List.length_append, List.length_cons]
      omega
    calc (runDebate s (e :: es)).history
        = (runDebate (stepDebate s e) es).history := rfl
      _ = (stepDebate s e).history ++ histOf es := ih (stepDebate s e) hlen2
      _ = s.history ++ histOf (e :: es) := by
          rw [hstep, histOf_cons]
          simp

lemma runDebate_bull_history (es : List Emission) :
    ∀ s : InvestDebateState,
      (runDebate s es).bull_history =
        s.bull_history ++ histOf (es.filter (fun e => e.isBull)) := by
  induction es with
  | nil =>
    intro s
    simp [runDebate, histOf]
  | cons e es ih =>
    intro s
    rcases e with ⟨b, c⟩
    have hrun : runDebate s (⟨b, c⟩ :: es) = runDebate (stepDebate s ⟨b, c⟩) es := rfl
    rw [hrun, ih]
    cases b
    · have hstep : (stepDebate s ⟨false, c⟩).bull_history = s.bull_history := rfl
      rw [hstep]
      simp [List.filter_cons]
    · have hstep : (stepDebate s ⟨true, c⟩).bull_history =
          s.bull_history ++ nl :: emittedArg ⟨true, c⟩ := by
        simp [stepDebate, bull_node, emittedArg]
      rw [hstep]
      simp [List.filter_cons, histOf_cons]

lemma runDebate_bear_history (es : List Emission) :
    ∀ s : InvestDebateState,
      (runDebate s es).bear_history =
        s.bear_history ++ histOf (es.filter (fun e => !e.isBull)) := by
  induction es with
  | nil =>
    intro s
    simp [runDebate, histOf]
  | cons e es ih =>
    intro s
    rcases e with ⟨b, c⟩
    have hrun : runDebate s (⟨b, c⟩ :: es) = runDebate (stepDebate s ⟨b, c⟩) es := rfl
    rw [hrun, ih]
    cases b
    · have hstep : (stepDebate s ⟨false, c⟩).bear_history =
          s.bear_history ++ nl :: emittedArg ⟨false, c⟩ := by
        simp [stepDebate, bear_node, emittedArg]
      rw [hstep]
      simp [List.filter_cons, histOf_cons]
    · have hstep : (stepDebate s ⟨true, c⟩).bear_history = s.bear_history := rfl
      rw [hstep]
      simp [List.filter_cons]

lemma nl_not_mem_emittedArg {e : Emission} (h : nl ∉ e.content) :
    nl ∉ emittedArg e := by
  rcases e with ⟨b, c⟩
  intro hm
  rcases List.mem_append.mp hm with hm | hm
  · revert hm
    cases b <;> simp [emittedArg] <;> decide
  · cases b <;> exact h (by simpa [emittedArg] using hm)

lemma splitNl_append_histOf (es : List Emission) :
    (∀ e ∈ es, nl ∉ e.content) →
    ∀ x : Str, nl ∉ x →
      splitNl (x ++ histOf es) = x :: es.map emittedArg := by
  induction es with
  | nil =>
    intro _ x hx
    rw [show histOf [] = [] from rfl, List.append_nil, splitNl_nlfree hx]
    rfl
  | cons e es ih =>
    intro hc x hx
    have h1 : nl ∉ emittedArg e := nl_not_mem_emittedArg (hc e (by simp))
    have h2 : ∀ e2 ∈ es, nl ∉ e2.content := fun e2 he2 => hc e2 (by simp [he2])
    have hflat : x ++ histOf (e :: es) = x ++ nl :: (emittedArg e ++ histOf es) := by
      rw [histOf_cons]
    rw [hflat, splitNl_append_nl hx, ih h2 (emittedArg e) h1]
    rfl

lemma splitNl_histOf (es : List Emission) (hc : ∀ e ∈ es, nl ∉ e.content) :
    splitNl (histOf es) = [] :: es.map emittedArg := by
  have := splitNl_append_histOf es hc [] (by simp)
  simpa using this

lemma isBullLine_emittedArg (e : Emission) :
    isBullLine (emittedArg e) = e.isBull := by
  rcases e with ⟨b, c⟩
  cases b
  · show bullTagZh.isPrefixOf (bearTagZh ++ c) = false
    by_contra hne
    rw [Bool.not_eq_false, List.isPrefixOf_iff_prefix] at hne
    have htake := List.prefix_iff_eq_take.mp hne
    rw [show bullTagZh.length = bearTagZh.length from by decide,
      List.take_left] at htake
    exact absurd htake (by decide)
  · show bullTagZh.isPrefixOf (bullTagZh ++ c) = true
    exact List.isPrefixOf_iff_prefix.mpr (List.prefix_append _ _)

lemma isBearLine_emittedArg (e : Emission) :
    isBearLine (emittedArg e) = !e.isBull := by
  rcases e with ⟨b, c⟩
  cases b
  · show bearTagZh.isPrefixOf (bearTagZh ++ c) = true
    exact List.isPrefixOf_iff_prefix.mpr (List.prefix_append _ _)
  · show bearTagZh.isPrefixOf (bullTagZh ++ c) = false
    by_contra hne
    rw [Bool.not_eq_false, List.isPrefixOf_iff_prefix] at hne
    have htake := List.prefix_iff_eq_take.mp hne
    rw [show bearTagZh.length = bullTagZh.length from by decide,
      List.take_left] at htake
    exact absurd htake (by decide)

lemma filter_bull_map_emittedArg (es : List Emission) :
    (es.map emittedArg).filter isBullLine =
      (es.filter (fun e => e.isBull)).map emittedArg := by
  induction es with
  | nil => rfl
  | cons e es ih =>
    rcases e with ⟨b, c⟩
    cases b <;>
      simp [List.filter_cons, isBullLine_emittedArg, ih]

lemma filter_bear_map_emittedArg (es : List Emission) :
    (es.map emittedArg).filter isBearLine =
      (es.filter (fun e => !e.isBull)).map emittedArg := by
  induction es with
  | nil => rfl
  | cons e es ih =>
    rcases e with ⟨b, c⟩
    cases b <;>
      simp [List.filter_cons, isBearLine_emittedArg, ih]

/-- C7 (amended): provided no LLM reply contains a newline and the run fits
in the 3500-character truncation budget, the final debate history is exactly
the ordered concatenation of the emitted tagged lines, its line decomposition
is the leading empty segment (from the newline separators) followed by the
emitted lines in emission order, and filtering the history lines on a side's
speaker tag reproduces exactly that side's history lines. -/
theorem C7_history_roundtrip (es : List Emission)
    (hclean : ∀ e ∈ es, nl ∉ e.content)
    (hsize : emissionsSize es ≤ maxHistoryChars) :
    (runDebate initialInvestDebateState es).history = histOf es ∧
    splitNl (runDebate initialInvestDebateState es).history =
      [] :: es.map emittedArg ∧
    splitNl (runDebate initialInvestDebateState es).bull_history =
      [] :: (splitNl (runDebate initialInvestDebateState es).history).filter isBullLine ∧
    splitNl (runDebate initialInvestDebateState es).bear_history =
      [] :: (splitNl (runDebate initialInvestDebateState es).history).filter isBearLine := by
  have hh : (runDebate initialInvestDebateState es).history = histOf es := by
    have h0 : initialInvestDebateState.history.length + emissionsSize es ≤
        maxHistoryChars := by
      simpa [initialInvestDebateState] using hsize
    have := runDebate_history es initialInvestDebateState h0
    simpa [initialInvestDebateState] using this
  have hlines : splitNl (runDebate initialInvestDebateState es).history =
      [] :: es.map emittedArg := by
    rw [hh]
    exact splitNl_histOf es hclean
  have hcb : ∀ e ∈ es.filter (fun e => e.isBull), nl ∉ e.content :=
    fun e he => hclean e (List.mem_of_mem_filter he)
  have hcr : ∀ e ∈ es.filter (fun e => !e.isBull), nl ∉ e.content :=
    fun e he => hclean e (List.mem_of_mem_filter he)
  have hbl : splitNl (runDebate initialInvestDebateState es).bull_history =
      [] :: (es.filter (fun e => e.isBull)).map emittedArg := by
    rw [runDebate_bull_history es initialInvestDebateState,
      show initialInvestDebateState.bull_history = [] from rfl, List.nil_append]
    exact splitNl_histOf _ hcb
  have hbr : splitNl (runDebate initialInvestDebateState es).bear_history =
      [] :: (es.filter (fun e => !e.isBull)).map emittedArg := by
    rw [runDebate_bear_history es initialInvestDebateState,
      show initialInvestDebateState.bear_history = [] from rfl, List.nil_append]
    exact splitNl_histOf _ hcr
  refine ⟨hh, hlines, ?_, ?_⟩
  · rw [hbl, hlines, List.filter_cons,
      show isBullLine [] = false from by decide, filter_bull_map_emittedArg]
    simp
  · rw [hbr, hlines, List.filter_cons,
      show isBearLine [] = false from by decide, filter_bear_map_emittedArg]
    simp

/-- C7 witness: the round-trip theorem applied to a two-emission debate,
Bull speaking "a" and Bear speaking "b". -/
theorem C7_history_roundtrip_witness :
    (runDebate initialInvestDebateState
        [{ isBull := true, content := ("a").data },
         { isBull := false, content := ("b").data }]).history =
      histOf
        [{ isBull := true, content := ("a").data },
         { isBull := false, content := ("b").data }] ∧
    splitNl (runDebate initialInvestDebateState
        [{ isBull := true, content := ("a").data },
         { isBull := false, content := ("b").data }]).history =
      [] ::
        List.map emittedArg
          [{ isBull := true, content := ("a").data },
           { isBull := false, content := ("b").data }] ∧
    splitNl (runDebate initialInvestDebateState
        [{ isBull := true, content := ("a").data },
         { isBull := false, content := ("b").data }]).bull_history =
      [] ::
        (splitNl (runDebate initialInvestDebateState
          [{ isBull := true, content := ("a").data },
           { isBull := false, content := ("b").data }]).history).filter isBullLine ∧
    splitNl (runDebate initialInvestDebateState
        [{ isBull := true, content := ("a").data },
         { isBull := false, content := ("b").data }]).bear_history =
      [] ::
        (splitNl (runDebate initialInvestDebateState
          [{ isBull := true, content := ("a").data },
           { isBull := false, content := ("b").data }]).history).filter isBearLine :=
  C7_history_roundtrip
    [{ isBull := true, content := ("a").data },
     { isBull := false, content := ("b").data }]
    (by decide) (by decide)

/-- C7 counterexample: a single bull reply containing a newline yields a bull
utterance spanning two history lines.  Filtering the history lines on the
bull speaker tag keeps only the first of them, so the reconstruction drops
the continuation line and fails to reproduce `bull_history` — both at the
line level and after rejoining with newlines. -/
theorem C7_multiline_counterexample :
    splitNl (runDebate initialInvestDebateState
        [{ isBull := true, content := ("x\ny").data }]).bull_history ≠
      [] :: (splitNl (runDebate initialInvestDebateState
        [{ isBull := true, content := ("x\ny").data }]).history).filter isBullLine ∧
    joinNl ((splitNl (runDebate initialInvestDebateState
        [{ isBull := true, content := ("x\ny").data }]).history).filter isBullLine) ≠
      (runDebate initialInvestDebateState
        [{ isBull := true, content := ("x\ny").data }]).bull_history := by
  decide

end StockTeam
